import Mathlib

/-!
Verification of `analysis/data_structures.py` (PipelineDP utility-analysis
configuration expansion).

The Python module defines two dataclasses, `MultiParameterConfiguration` and
`UtilityAnalysisOptions`, and two module-level functions,
`get_aggregate_params` and `get_partition_selection_strategy`.  This file is
a shallow embedding of that module: Python floats are modelled as `ℚ`,
Python `list` indexing (negative indices count from the end, out-of-range
raises `IndexError`) as `pyGet`, Python truthiness of optional lists as
`pyTruthy`, and raising as returning `Except PyErr` / `Option PyErr`.
`dataclasses.__post_init__` validation is modelled as a separate function
(`mpcValidationError`, `optionsValidationError`) returning the error that
construction would raise, or `none` when construction succeeds.
-/

/-- Noise kinds (`pipeline_dp.NoiseKind`). -/
inductive NoiseKind where
  | laplace
  | gaussian
deriving DecidableEq, Repr

/-- Partition selection strategies (`pipeline_dp.PartitionSelectionStrategy`):
an enumeration whose particular values the analysis module never inspects. -/
inductive PartitionSelectionStrategy where
  | truncated_geometric
  | laplace_thresholding
  | gaussian_thresholding
deriving DecidableEq, Repr

/-- A value of Python type `Union[float, Sequence[float]]`: the elements of
`min_sum_per_partition` / `max_sum_per_partition` are each either a scalar or
a per-column row of scalars. -/
inductive SumBound where
  | scalar (v : ℚ)
  | row (vs : List ℚ)
deriving DecidableEq, Repr

/-- Python `isinstance(b, Sequence)` for a `SumBound` element. -/
def SumBound.isRow : SumBound → Bool
  | .scalar _ => false
  | .row _ => true

/-- Python `len()` of a `SumBound` element.  In the source it is only applied
under the `all_elements_are_lists` guard, so the scalar case (where Python
`len` would raise `TypeError`) is never reached; it is given the harmless
value 0 here. -/
def SumBound.pyLen : SumBound → Nat
  | .scalar _ => 0
  | .row vs => vs.length

/-- Python exceptions the module can raise.  `ValueError` is the
"ConfigurationError" of the spec (all `raise ValueError(...)` sites);
`IndexError` is out-of-range list indexing; `TypeError` arises from applying
sequence operations to non-sequences. -/
inductive PyErr where
  | indexError
  | typeError
  | valueError
deriving DecidableEq, Repr

/-- Python list indexing `l[i]`: non-negative indices are positional,
negative indices in `[-len l, -1]` count from the end, anything else is an
`IndexError` (modelled as `none`). -/
def pyGet (l : List α) (i : Int) : Option α :=
  if 0 ≤ i then l[i.toNat]?
  else if 0 ≤ i + l.length then l[(i + l.length).toNat]?
  else none

/-- Python truthiness of an optional list: `None` and `[]` are falsy. -/
def pyTruthy : Option (List α) → Bool
  | none => false
  | some l => !l.isEmpty

/-- Contribution of one attribute to the `sizes` list of `__post_init__`:
`[len(value)]` when the attribute is truthy, nothing otherwise. -/
def optLen : Option (List α) → List Nat
  | none => []
  | some l => if l.isEmpty then [] else [l.length]

/-- The dataclass `pipeline_dp.AggregateParams`, the blueprint configuration.  Only the six
fields the analysis module reads or overrides are named; every remaining
field of the Python dataclass is bundled into `other_fields : α`, which the
module copies untouched (`copy.copy`). -/
structure AggregateParams (α : Type) where
  max_partitions_contributed : Int
  max_contributions_per_partition : Int
  min_sum_per_partition : SumBound
  max_sum_per_partition : SumBound
  noise_kind : NoiseKind
  partition_selection_strategy : PartitionSelectionStrategy
  other_fields : α
deriving DecidableEq, Repr

/-- The dataclass `MultiParameterConfiguration`: six optional parallel sequences of
alternate parameter values. -/
structure MultiParameterConfiguration where
  max_partitions_contributed : Option (List Int) := none
  max_contributions_per_partition : Option (List Int) := none
  min_sum_per_partition : Option (List SumBound) := none
  max_sum_per_partition : Option (List SumBound) := none
  noise_kind : Option (List NoiseKind) := none
  partition_selection_strategy : Option (List PartitionSelectionStrategy) := none
deriving DecidableEq, Repr

/-- The `sizes` list of `__post_init__`:
`sizes = [len(value) for value in attributes.values() if value]`, in the
dataclass field order. -/
def mpcSizes (c : MultiParameterConfiguration) : List Nat :=
  optLen c.max_partitions_contributed ++ optLen c.max_contributions_per_partition ++
    optLen c.min_sum_per_partition ++ optLen c.max_sum_per_partition ++
    optLen c.noise_kind ++ optLen c.partition_selection_strategy

/-- Python `min` over a list of naturals (`min([])` raises; modelled `none`). -/
def pymin : List Nat → Option Nat
  | [] => none
  | h :: t => some (t.foldl min h)

/-- Python `max` over a list of naturals (`max([])` raises; modelled `none`). -/
def pymax : List Nat → Option Nat
  | [] => none
  | h :: t => some (t.foldl max h)

/-- Helper `all_elements_are_lists` from `__post_init__`. -/
def all_elements_are_lists (a : List SumBound) : Bool :=
  a.all SumBound.isRow

/-- Helper `common_value_len` from `__post_init__`:
`min(sizes) if min(sizes) == max(sizes) else None` over the element lengths.
For `a = []`, Python `min([])` raises `ValueError`, which (at the only call
site) aborts construction exactly like the `None` result does, so it is
folded into `none` here. -/
def common_value_len (a : List SumBound) : Option Nat :=
  match a.map SumBound.pyLen with
  | [] => none
  | h :: t => if t.foldl min h = t.foldl max h then some (t.foldl min h) else none

/-- Validation `MultiParameterConfiguration.__post_init__`: the error construction
raises, or `none` when construction succeeds.  Mirrors the source checks in
order: empty `sizes`; `min(sizes) != max(sizes)`;
`(min_sum is None) != (max_sum is None)`; and, when `min_sum_per_partition`
is truthy and all elements of both sum fields are sequences, the
`common_value_len` multi-column check. -/
def mpcValidationError (c : MultiParameterConfiguration) : Option PyErr :=
  let sizes := mpcSizes c
  if sizes.isEmpty then some .valueError
  else if pymin sizes ≠ pymax sizes then some .valueError
  else if c.min_sum_per_partition.isNone ≠ c.max_sum_per_partition.isNone then
    some .valueError
  else
    match c.min_sum_per_partition, c.max_sum_per_partition with
    | some lmin, some lmax =>
      if lmin.isEmpty then none
      else if all_elements_are_lists lmin && all_elements_are_lists lmax then
        match common_value_len lmin, common_value_len lmax with
        | some s1, some s2 => if s1 = s2 then none else some .valueError
        | _, _ => some .valueError
      else none
    | _, _ => none

/-- The stored `self._size = sizes[0]` (only meaningful when construction succeeded, in
which case `mpcSizes` is non-empty). -/
def MultiParameterConfiguration.size (c : MultiParameterConfiguration) : Nat :=
  (mpcSizes c).headD 0

/-- One `if self.attr: params.attr = self.attr[index]` step of
`get_aggregate_params`: keeps the current value when the alternate sequence
is falsy, otherwise indexes it (raising `IndexError` when out of range). -/
def overrideField (alt : Option (List β)) (cur : β) (index : Int) : Except PyErr β :=
  match alt with
  | none => .ok cur
  | some l =>
    if l.isEmpty then .ok cur
    else
      match pyGet l index with
      | some v => .ok v
      | none => .error .indexError

/-- The method `MultiParameterConfiguration.get_aggregate_params`: copies `params`,
overrides the four scalar-per-configuration fields that have truthy
alternate sequences with their `index`-th value, then derives the
min/max-sum bound-pair list: from `min_sum_per_partition[index]` /
`max_sum_per_partition[index]` when `min_sum_per_partition` is truthy
(zipping columns when the min element is a sequence — Python `zip` with a
scalar on the max side raises `TypeError`), and otherwise the single pair
taken from the (copied) params' own sum fields. -/
def MultiParameterConfiguration.get_aggregate_params (c : MultiParameterConfiguration)
    (params : AggregateParams α) (index : Int) :
    Except PyErr (AggregateParams α × List (SumBound × SumBound)) :=
  match overrideField c.max_partitions_contributed params.max_partitions_contributed index with
  | .error e => .error e
  | .ok v1 =>
  match overrideField c.max_contributions_per_partition
      params.max_contributions_per_partition index with
  | .error e => .error e
  | .ok v2 =>
  match overrideField c.noise_kind params.noise_kind index with
  | .error e => .error e
  | .ok v3 =>
  match overrideField c.partition_selection_strategy
      params.partition_selection_strategy index with
  | .error e => .error e
  | .ok v4 =>
  let params' : AggregateParams α :=
    { params with
      max_partitions_contributed := v1
      max_contributions_per_partition := v2
      noise_kind := v3
      partition_selection_strategy := v4 }
  match c.min_sum_per_partition with
  | some lmin =>
    if lmin.isEmpty then
      .ok (params', [(params'.min_sum_per_partition, params'.max_sum_per_partition)])
    else
      match pyGet lmin index with
      | none => .error .indexError
      | some min_sum =>
        match c.max_sum_per_partition with
        | none => .error .typeError
        | some lmax =>
          match pyGet lmax index with
          | none => .error .indexError
          | some max_sum =>
            match min_sum with
            | .row a =>
              match max_sum with
              | .row b =>
                .ok (params',
                  (a.zip b).map (fun p => (SumBound.scalar p.1, SumBound.scalar p.2)))
              | .scalar _ => .error .typeError
            | .scalar v => .ok (params', [(SumBound.scalar v, max_sum)])
  | none => .ok (params', [(params'.min_sum_per_partition, params'.max_sum_per_partition)])

/-- Modelled from the spec: `pipeline_dp.input_validators.validate_epsilon_delta`
is repository code not present under the sources.  The spec says it checks
that epsilon is positive and that delta lies in its valid numeric range (a
valid probability below 1). -/
def validate_epsilon_delta (epsilon delta : ℚ) : Bool :=
  (0 < epsilon) && (0 ≤ delta) && (delta < 1)

/-- The dataclass `UtilityAnalysisOptions`: the top-level analysis request. -/
structure UtilityAnalysisOptions (α : Type) where
  epsilon : ℚ
  delta : ℚ
  aggregate_params : AggregateParams α
  multi_param_configuration : Option MultiParameterConfiguration := none
  partitions_sampling_prob : ℚ := 1
  pre_aggregated_data : Bool := false
deriving DecidableEq, Repr

/-- Validation `UtilityAnalysisOptions.__post_init__`: validate epsilon/delta via the
shared validator, then require `0 < partitions_sampling_prob ≤ 1`. -/
def optionsValidationError (o : UtilityAnalysisOptions α) : Option PyErr :=
  if !validate_epsilon_delta o.epsilon o.delta then some .valueError
  else if o.partitions_sampling_prob ≤ 0 ∨ 1 < o.partitions_sampling_prob then
    some .valueError
  else none

/-- The property `UtilityAnalysisOptions.n_configurations`. -/
def UtilityAnalysisOptions.n_configurations (o : UtilityAnalysisOptions α) : Nat :=
  match o.multi_param_configuration with
  | none => 1
  | some c => c.size

/-- Exhausting a Python generator that executes `for i in range(n): yield f(i)`:
collects the yielded values in order, aborting with the first raised
exception. -/
def buildList (f : Nat → Except PyErr β) : Nat → Except PyErr (List β)
  | 0 => .ok []
  | n + 1 =>
    match buildList f n with
    | .error e => .error e
    | .ok l =>
      match f n with
      | .error e => .error e
      | .ok b => .ok (l ++ [b])

/-- Module-level `get_aggregate_params(options)`: with no
`multi_param_configuration`, a single tuple built from the blueprint itself;
otherwise one `get_aggregate_params(options.aggregate_params, i)` tuple per
`i in range(size)`. -/
def get_aggregate_params (options : UtilityAnalysisOptions α) :
    Except PyErr (List (AggregateParams α × List (SumBound × SumBound))) :=
  match options.multi_param_configuration with
  | none =>
    let agg := options.aggregate_params
    .ok [(agg, [(agg.min_sum_per_partition, agg.max_sum_per_partition)])]
  | some c =>
    buildList (fun i => c.get_aggregate_params options.aggregate_params (Int.ofNat i)) c.size

/-- Module-level `get_partition_selection_strategy(options)`: the
configuration's strategy sequence verbatim when it is not `None`, otherwise
the blueprint's strategy repeated once per configuration. -/
def get_partition_selection_strategy (options : UtilityAnalysisOptions α) :
    List PartitionSelectionStrategy :=
  match options.multi_param_configuration with
  | none => List.replicate 1 options.aggregate_params.partition_selection_strategy
  | some c =>
    match c.partition_selection_strategy with
    | some s => s
    | none => List.replicate c.size options.aggregate_params.partition_selection_strategy

/-! ### Concrete values used by the example-driven claims -/

/-- A concrete blueprint `AggregateParams` used for closed evaluations. -/
def exampleParams : AggregateParams Unit :=
  ⟨0, 0, .scalar 0, .scalar 0, .laplace, .truncated_geometric, ()⟩

/-- Example A of the spec: alternate partition-contribution bounds `[1, 2]`
and per-partition-contribution bounds `[10, 11]`. -/
def exampleA : MultiParameterConfiguration :=
  { max_partitions_contributed := some [1, 2]
    max_contributions_per_partition := some [10, 11] }

/-- Example B of the spec: `min_sum = [[1, 2], [3, 4]]`,
`max_sum = [[5, 6], [7, 8]]`. -/
def exampleB : MultiParameterConfiguration :=
  { min_sum_per_partition := some [.row [1, 2], .row [3, 4]]
    max_sum_per_partition := some [.row [5, 6], .row [7, 8]] }

/-- A configuration with an empty (but supplied) `min_sum_per_partition` and
a `max_sum_per_partition` whose rows have differing column counts. -/
def c4mpc : MultiParameterConfiguration :=
  { min_sum_per_partition := some []
    max_sum_per_partition := some [.row [1], .row [2, 3]] }

/-- A configuration supplying an empty `partition_selection_strategy`
sequence next to a length-2 `max_partitions_contributed` sequence. -/
def c5mpc : MultiParameterConfiguration :=
  { max_partitions_contributed := some [1, 2]
    partition_selection_strategy := some [] }

/-- Options wrapping `c5mpc`. -/
def optsC5 : UtilityAnalysisOptions Unit :=
  { epsilon := 1, delta := 0, aggregate_params := exampleParams
    multi_param_configuration := some c5mpc }

/-- A valid size-2 configuration overriding only
`max_partitions_contributed`. -/
def c7mpc : MultiParameterConfiguration :=
  { max_partitions_contributed := some [1, 2] }

/-- Options wrapping Example A, for closed witnesses. -/
def optsA : UtilityAnalysisOptions Unit :=
  ⟨1, 0, exampleParams, some exampleA, 1, false⟩

/-- The two configurations Example A expands to. -/
def cfgA0 : AggregateParams Unit :=
  { exampleParams with
      max_partitions_contributed := 1
      max_contributions_per_partition := 10 }

def cfgA1 : AggregateParams Unit :=
  { exampleParams with
      max_partitions_contributed := 2
      max_contributions_per_partition := 11 }

/-- The full expansion of Example A options. -/
def listA : List (AggregateParams Unit × List (SumBound × SumBound)) :=
  [(cfgA0, [(.scalar 0, .scalar 0)]), (cfgA1, [(.scalar 0, .scalar 0)])]


/-! ### The spec's validation condition (C4), stated from the spec's words -/

/-- Spec condition: no non-empty alternate sequence is supplied. -/
def specNoNonEmptyAlternate (c : MultiParameterConfiguration) : Prop :=
  pyTruthy c.max_partitions_contributed = false ∧
  pyTruthy c.max_contributions_per_partition = false ∧
  pyTruthy c.min_sum_per_partition = false ∧
  pyTruthy c.max_sum_per_partition = false ∧
  pyTruthy c.noise_kind = false ∧
  pyTruthy c.partition_selection_strategy = false

/-- Spec condition: two non-empty sequences have different lengths. -/
def specLengthMismatch (c : MultiParameterConfiguration) : Prop :=
  ∃ a ∈ mpcSizes c, ∃ b ∈ mpcSizes c, a ≠ b

/-- Spec condition: exactly one of the min-sum and max-sum sequences is set
(supplied, i.e. not `None`). -/
def specExactlyOneSumSet (c : MultiParameterConfiguration) : Prop :=
  c.min_sum_per_partition.isNone ≠ c.max_sum_per_partition.isNone

/-- Spec condition, claim reading: in the multi-column case (both sum
sequences set with all their elements themselves sequences), the row
column-counts mismatch between min-sum and max-sum or across themselves,
i.e. no single column count is shared by every row of both. -/
def specMultiColumnMismatch (c : MultiParameterConfiguration) : Prop :=
  ∃ lmin lmax, c.min_sum_per_partition = some lmin ∧
    c.max_sum_per_partition = some lmax ∧
    (∀ s ∈ lmin, s.isRow = true) ∧ (∀ s ∈ lmax, s.isRow = true) ∧
    ¬ ∃ k, (∀ s ∈ lmin, s.pyLen = k) ∧ (∀ s ∈ lmax, s.pyLen = k)

/-- C4 as claimed: construction fails exactly when one of the four spec
conditions holds. -/
def specRaisesC4 (c : MultiParameterConfiguration) : Prop :=
  specNoNonEmptyAlternate c ∨ specLengthMismatch c ∨ specExactlyOneSumSet c ∨
    specMultiColumnMismatch c

/-- Amended multi-column condition: the source enters the multi-column check
only when the min-sum sequence is non-empty, and an empty (but supplied)
max-sum sequence has no common column count, so it always counts as a
mismatch there. -/
def specMultiColumnMismatchAmended (c : MultiParameterConfiguration) : Prop :=
  ∃ lmin lmax, c.min_sum_per_partition = some lmin ∧
    c.max_sum_per_partition = some lmax ∧ lmin ≠ [] ∧
    (∀ s ∈ lmin, s.isRow = true) ∧ (∀ s ∈ lmax, s.isRow = true) ∧
    ¬ ∃ k, (∀ s ∈ lmin, s.pyLen = k) ∧ lmax ≠ [] ∧ (∀ s ∈ lmax, s.pyLen = k)

/-- C4 amended: construction fails exactly when one of the four conditions
holds, with the multi-column clause in its amended form. -/
def specRaisesC4Amended (c : MultiParameterConfiguration) : Prop :=
  specNoNonEmptyAlternate c ∨ specLengthMismatch c ∨ specExactlyOneSumSet c ∨
    specMultiColumnMismatchAmended c

/-! ### Lemmas about the Python `min`/`max` folds -/

theorem foldl_min_le_init (t : List Nat) : ∀ h : Nat, t.foldl min h ≤ h := by
  induction t with
  | nil => intro h; exact le_refl h
  | cons a t ih =>
    intro h
    exact le_trans (ih (min h a)) (min_le_left h a)

theorem foldl_min_le_mem (t : List Nat) :
    ∀ (h a : Nat), a ∈ t → t.foldl min h ≤ a := by
  induction t with
  | nil => intro h a ha; cases ha
  | cons b t ih =>
    intro h a ha
    rcases List.mem_cons.mp ha with rfl | ha
    · exact le_trans (foldl_min_le_init t (min h a)) (min_le_right h a)
    · exact ih (min h b) a ha

theorem le_foldl_max_init (t : List Nat) : ∀ h : Nat, h ≤ t.foldl max h := by
  induction t with
  | nil => intro h; exact le_refl h
  | cons a t ih =>
    intro h
    exact le_trans (le_max_left h a) (ih (max h a))

theorem le_foldl_max_mem (t : List Nat) :
    ∀ (h a : Nat), a ∈ t → a ≤ t.foldl max h := by
  induction t with
  | nil => intro h a ha; cases ha
  | cons b t ih =>
    intro h a ha
    rcases List.mem_cons.mp ha with rfl | ha
    · exact le_trans (le_max_right h a) (le_foldl_max_init t (max h a))
    · exact ih (max h b) a ha

theorem foldl_min_eq_const (t : List Nat) :
    ∀ h : Nat, (∀ a ∈ t, a = h) → t.foldl min h = h := by
  induction t with
  | nil => intro h _; rfl
  | cons b t ih =>
    intro h hall
    have hb : b = h := hall b (List.mem_cons_self b t)
    subst hb
    simp only [List.foldl_cons, min_self]
    exact ih b fun a ha => hall a (List.mem_cons_of_mem b ha)

theorem foldl_max_eq_const (t : List Nat) :
    ∀ h : Nat, (∀ a ∈ t, a = h) → t.foldl max h = h := by
  induction t with
  | nil => intro h _; rfl
  | cons b t ih =>
    intro h hall
    have hb : b = h := hall b (List.mem_cons_self b t)
    subst hb
    simp only [List.foldl_cons, max_self]
    exact ih b fun a ha => hall a (List.mem_cons_of_mem b ha)

/-- Python `min(sizes) == max(sizes)` over `h :: t` says exactly that every element
equals the head. -/
theorem foldl_min_eq_foldl_max_iff (h : Nat) (t : List Nat) :
    t.foldl min h = t.foldl max h ↔ ∀ a ∈ t, a = h := by
  constructor
  · intro heq a ha
    have h1 : t.foldl min h ≤ h := foldl_min_le_init t h
    have h2 : h ≤ t.foldl max h := le_foldl_max_init t h
    have h3 : t.foldl min h ≤ a := foldl_min_le_mem t h a ha
    have h4 : a ≤ t.foldl max h := le_foldl_max_mem t h a ha
    omega
  · intro hall
    rw [foldl_min_eq_const t h hall, foldl_max_eq_const t h hall]

theorem pymin_eq_pymax_iff (h : Nat) (t : List Nat) :
    pymin (h :: t) = pymax (h :: t) ↔ ∀ a ∈ t, a = h := by
  simp only [pymin, pymax, Option.some.injEq]
  exact foldl_min_eq_foldl_max_iff h t

/-! ### Lemmas about Python indexing -/

theorem pyGet_ofNat (l : List α) (i : Nat) : pyGet l (Int.ofNat i) = l[i]? := by
  simp [pyGet]

theorem pyGet_eq_none_iff (l : List α) (i : Int) :
    pyGet l i = none ↔ i < -(l.length : Int) ∨ (l.length : Int) ≤ i := by
  unfold pyGet
  by_cases h0 : 0 ≤ i
  · rw [if_pos h0]
    rw [List.getElem?_eq_none_iff]
    omega
  · rw [if_neg h0]
    by_cases h1 : 0 ≤ i + l.length
    · rw [if_pos h1]
      rw [List.getElem?_eq_none_iff]
      omega
    · rw [if_neg h1]
      simp only [true_iff]
      omega

theorem pyGet_isSome_of_inrange (l : List α) (i : Int)
    (h1 : -(l.length : Int) ≤ i) (h2 : i < (l.length : Int)) :
    ∃ v, pyGet l i = some v := by
  rcases ho : pyGet l i with _ | v
  · rw [pyGet_eq_none_iff] at ho
    omega
  · exact ⟨v, rfl⟩

theorem pyGet_none_of_outrange (l : List α) (i : Int)
    (h : i < -(l.length : Int) ∨ (l.length : Int) ≤ i) :
    pyGet l i = none :=
  (pyGet_eq_none_iff l i).mpr h

theorem pyGet_isSome_length_gt (l : List α) (i : Int) (v : α) (h : pyGet l i = some v) :
    ¬(i < -(l.length : Int) ∨ (l.length : Int) ≤ i) := by
  intro hout
  rw [pyGet_none_of_outrange l i hout] at h
  cases h

/-! ### Lemmas about `mpcSizes` and validated configurations -/

theorem optLen_eq_nil_iff (o : Option (List α)) : optLen o = [] ↔ pyTruthy o = false := by
  cases o with
  | none => simp [optLen, pyTruthy]
  | some l =>
    cases l with
    | nil => simp [optLen, pyTruthy]
    | cons a t => simp [optLen, pyTruthy]

theorem optLen_truthy (o : Option (List α)) (l : List α)
    (ho : o = some l) (hne : l.isEmpty = false) : optLen o = [l.length] := by
  subst ho
  simp [optLen, hne]

theorem mem_mpcSizes_of_truthy (c : MultiParameterConfiguration) (n : Nat)
    (h : [n] = optLen c.max_partitions_contributed ∨
         [n] = optLen c.max_contributions_per_partition ∨
         [n] = optLen c.min_sum_per_partition ∨
         [n] = optLen c.max_sum_per_partition ∨
         [n] = optLen c.noise_kind ∨
         [n] = optLen c.partition_selection_strategy) :
    n ∈ mpcSizes c := by
  unfold mpcSizes
  simp only [List.mem_append, List.mem_singleton]
  rcases h with h | h | h | h | h | h <;> rw [← h] <;> simp

/-- A configuration that constructs successfully has a non-empty `sizes`
list whose Python `min` equals its Python `max`. -/
theorem valid_facts (c : MultiParameterConfiguration) (h : mpcValidationError c = none) :
    (mpcSizes c).isEmpty = false ∧ pymin (mpcSizes c) = pymax (mpcSizes c) := by
  unfold mpcValidationError at h
  by_cases h1 : (mpcSizes c).isEmpty = true
  · rw [if_pos h1] at h
    exact Option.noConfusion h
  · rw [if_neg h1] at h
    by_cases h2 : pymin (mpcSizes c) ≠ pymax (mpcSizes c)
    · rw [if_pos h2] at h
      exact Option.noConfusion h
    · exact ⟨Bool.not_eq_true _ ▸ h1, not_not.mp h2⟩

/-- Every entry of `sizes` in a validly constructed configuration equals
`size` (the head of `sizes`). -/
theorem valid_sizes_all_eq (c : MultiParameterConfiguration)
    (h : mpcValidationError c = none) : ∀ n ∈ mpcSizes c, n = c.size := by
  obtain ⟨h1, h2⟩ := valid_facts c h
  rcases hs : mpcSizes c with _ | ⟨hd, t⟩
  · rw [hs] at h1
    exact absurd h1 (by simp)
  · rw [hs] at h2
    have hall := (pymin_eq_pymax_iff hd t).mp h2
    intro n hn
    rw [MultiParameterConfiguration.size, hs]
    simp only [List.headD_cons]
    rcases List.mem_cons.mp hn with rfl | hn'
    · rfl
    · exact hall n hn'

/-- A validly constructed configuration has a positive size. -/
theorem valid_size_pos (c : MultiParameterConfiguration)
    (h : mpcValidationError c = none) : 0 < c.size := by
  obtain ⟨h1, -⟩ := valid_facts c h
  rcases hs : mpcSizes c with _ | ⟨hd, t⟩
  · rw [hs] at h1
    exact absurd h1 (by simp)
  · have hmem : hd ∈ mpcSizes c := by rw [hs]; exact List.mem_cons_self hd t
    have := valid_sizes_all_eq c h hd hmem
    -- `hd` is the length of a truthy (hence non-empty) list
    rcases hs2 : mpcSizes c with _ | ⟨hd2, t2⟩
    · rw [hs2] at hs; cases hs
    · rw [MultiParameterConfiguration.size, hs2]
      simp only [List.headD_cons]
      -- every element of mpcSizes is positive since optLen only emits
      -- lengths of non-empty lists
      have hpos : ∀ n ∈ mpcSizes c, 0 < n := by
        intro n hn
        unfold mpcSizes at hn
        simp only [List.mem_append] at hn
        have key : ∀ (γ : Type) (o : Option (List γ)), n ∈ optLen o → 0 < n := by
          intro γ o hno
          cases o with
          | none => cases hno
          | some l =>
            cases hl : l.isEmpty with
            | true => rw [optLen, if_pos hl] at hno; cases hno
            | false =>
              rw [optLen, if_neg (by simp [hl])] at hno
              rcases List.mem_singleton.mp hno with rfl
              cases l with
              | nil => simp at hl
              | cons a t => simp
        rcases hn with ((((hn | hn) | hn) | hn) | hn) | hn
        · exact key _ _ hn
        · exact key _ _ hn
        · exact key _ _ hn
        · exact key _ _ hn
        · exact key _ _ hn
        · exact key _ _ hn
      exact hpos hd2 (by rw [hs2]; exact List.mem_cons_self hd2 t2)

/-- Lengths of truthy alternate sequences equal `size`, one lemma per
field. -/
theorem length_eq_size_f1 (c : MultiParameterConfiguration)
    (h : mpcValidationError c = none) (l : List Int)
    (hl : c.max_partitions_contributed = some l) (hne : l.isEmpty = false) :
    l.length = c.size :=
  valid_sizes_all_eq c h _ (mem_mpcSizes_of_truthy c _ (Or.inl (optLen_truthy _ l hl hne).symm))

theorem length_eq_size_f2 (c : MultiParameterConfiguration)
    (h : mpcValidationError c = none) (l : List Int)
    (hl : c.max_contributions_per_partition = some l) (hne : l.isEmpty = false) :
    l.length = c.size :=
  valid_sizes_all_eq c h _
    (mem_mpcSizes_of_truthy c _ (Or.inr (Or.inl (optLen_truthy _ l hl hne).symm)))

theorem length_eq_size_fmin (c : MultiParameterConfiguration)
    (h : mpcValidationError c = none) (l : List SumBound)
    (hl : c.min_sum_per_partition = some l) (hne : l.isEmpty = false) :
    l.length = c.size :=
  valid_sizes_all_eq c h _
    (mem_mpcSizes_of_truthy c _ (Or.inr (Or.inr (Or.inl (optLen_truthy _ l hl hne).symm))))

theorem length_eq_size_fmax (c : MultiParameterConfiguration)
    (h : mpcValidationError c = none) (l : List SumBound)
    (hl : c.max_sum_per_partition = some l) (hne : l.isEmpty = false) :
    l.length = c.size :=
  valid_sizes_all_eq c h _
    (mem_mpcSizes_of_truthy c _
      (Or.inr (Or.inr (Or.inr (Or.inl (optLen_truthy _ l hl hne).symm)))))

theorem length_eq_size_fnoise (c : MultiParameterConfiguration)
    (h : mpcValidationError c = none) (l : List NoiseKind)
    (hl : c.noise_kind = some l) (hne : l.isEmpty = false) :
    l.length = c.size :=
  valid_sizes_all_eq c h _
    (mem_mpcSizes_of_truthy c _
      (Or.inr (Or.inr (Or.inr (Or.inr (Or.inl (optLen_truthy _ l hl hne).symm))))))

theorem length_eq_size_fstrategy (c : MultiParameterConfiguration)
    (h : mpcValidationError c = none) (l : List PartitionSelectionStrategy)
    (hl : c.partition_selection_strategy = some l) (hne : l.isEmpty = false) :
    l.length = c.size :=
  valid_sizes_all_eq c h _
    (mem_mpcSizes_of_truthy c _
      (Or.inr (Or.inr (Or.inr (Or.inr (Or.inr (optLen_truthy _ l hl hne).symm))))))

/-- Exhausting the generator with `n` steps yields a list of length `n`
whose `i`-th element is exactly the value `f i` produced. -/
theorem buildList_ok (f : Nat → Except PyErr β) :
    ∀ (n : Nat) (l : List β), buildList f n = .ok l →
      l.length = n ∧ ∀ i, i < n → ∃ a, f i = .ok a ∧ l[i]? = some a := by
  intro n
  induction n with
  | zero =>
    intro l hl
    rw [buildList] at hl
    cases hl
    exact ⟨rfl, fun i hi => absurd hi (by omega)⟩
  | succ n ih =>
    intro l hl
    rw [buildList] at hl
    rcases hb : buildList f n with e | l0
    · rw [hb] at hl
      exact Except.noConfusion hl
    · rw [hb] at hl
      rcases hf : f n with e | b
      · rw [hf] at hl
        exact Except.noConfusion hl
      · rw [hf] at hl
        cases hl
        obtain ⟨hlen, hel⟩ := ih l0 hb
        refine ⟨by simp [hlen], ?_⟩
        intro i hi
        by_cases hin : i < n
        · obtain ⟨a, ha, hidx⟩ := hel i hin
          refine ⟨a, ha, ?_⟩
          rw [List.getElem?_append, if_pos (by omega)]
          exact hidx
        · have : i = n := by omega
          subst this
          refine ⟨b, hf, ?_⟩
          rw [List.getElem?_append, if_neg (by omega)]
          simp [hlen]

/-! ### Claim theorems -/

/-- C1: a `MultiParameterConfiguration` with partition-contribution bounds
`[1, 2]` and per-partition-contribution bounds `[10, 11]` constructs
successfully over any baseline; `n_configurations = 2`; `get_aggregate_params`
yields configuration 0 with bounds (1, 10) and configuration 1 with bounds
(2, 11), all other fields (sum bounds, noise kind, strategy, and every
remaining blueprint field) equal to the baseline's. -/
theorem claim_exampleA_expansion :
    mpcValidationError exampleA = none ∧ exampleA.size = 2 ∧
    ∀ (α : Type) (params : AggregateParams α) (e d p : ℚ) (pre : Bool),
      (UtilityAnalysisOptions.mk e d params (some exampleA) p pre).n_configurations = 2 ∧
      get_aggregate_params (UtilityAnalysisOptions.mk e d params (some exampleA) p pre) =
        .ok [({ params with
                  max_partitions_contributed := 1
                  max_contributions_per_partition := 10 },
              [(params.min_sum_per_partition, params.max_sum_per_partition)]),
             ({ params with
                  max_partitions_contributed := 2
                  max_contributions_per_partition := 11 },
              [(params.min_sum_per_partition, params.max_sum_per_partition)])] := by
  refine ⟨rfl, rfl, ?_⟩
  intro α params e d p pre
  exact ⟨rfl, rfl⟩

/-- C2: when no `MultiParameterConfiguration` is supplied, the module-level
`get_aggregate_params` yields exactly one tuple, built from the baseline
itself, whose bound-pair list is the single pair of the baseline's own
min/max sums. -/
theorem claim_no_parameter_set_single_tuple (α : Type) (opts : UtilityAnalysisOptions α)
    (h : opts.multi_param_configuration = none) :
    get_aggregate_params opts =
      .ok [(opts.aggregate_params,
            [(opts.aggregate_params.min_sum_per_partition,
              opts.aggregate_params.max_sum_per_partition)])] := by
  unfold get_aggregate_params
  rw [h]

/-- Witness for C2 at a concrete option set. -/
theorem claim_no_parameter_set_single_tuple_witness :
    get_aggregate_params (UtilityAnalysisOptions.mk 1 0 exampleParams none 1 false) =
      .ok [(exampleParams, [(SumBound.scalar 0, SumBound.scalar 0)])] :=
  claim_no_parameter_set_single_tuple Unit
    (UtilityAnalysisOptions.mk 1 0 exampleParams none 1 false) rfl

/-- C6: a validly constructed configuration whose non-empty sequences all
have common length `N` has `size = N`; `n_configurations` of options holding
it is `N`, and 1 when the configuration is absent. -/
theorem claim_size_common_length (c : MultiParameterConfiguration) (N : Nat)
    (hv : mpcValidationError c = none) (hN : ∀ n ∈ mpcSizes c, n = N) :
    c.size = N ∧
    (∀ (α : Type) (opts : UtilityAnalysisOptions α),
      opts.multi_param_configuration = some c → opts.n_configurations = N) ∧
    (∀ (α : Type) (opts : UtilityAnalysisOptions α),
      opts.multi_param_configuration = none → opts.n_configurations = 1) := by
  have hsize : c.size = N := by
    obtain ⟨h1, -⟩ := valid_facts c hv
    rcases hs : mpcSizes c with _ | ⟨hd, t⟩
    · rw [hs] at h1
      exact absurd h1 (by simp)
    · have : hd ∈ mpcSizes c := by rw [hs]; exact List.mem_cons_self hd t
      rw [MultiParameterConfiguration.size, hs]
      simpa using hN hd this
  refine ⟨hsize, ?_, ?_⟩
  · intro α opts hm
    simp only [UtilityAnalysisOptions.n_configurations, hm]
    exact hsize
  · intro α opts hm
    simp only [UtilityAnalysisOptions.n_configurations, hm]

/-- Witness for C6 at Example A (common length 2). -/
theorem claim_size_common_length_witness :
    exampleA.size = 2 ∧
    (UtilityAnalysisOptions.mk 1 0 exampleParams (some exampleA) 1 false).n_configurations = 2 ∧
    (UtilityAnalysisOptions.mk 1 0 exampleParams none 1 false).n_configurations = 1 := by
  obtain ⟨h1, h2, h3⟩ := claim_size_common_length exampleA 2 (by rfl) (by decide)
  exact ⟨h1, h2 Unit _ rfl, h3 Unit _ rfl⟩

/-- C10: constructing `UtilityAnalysisOptions` with valid epsilon/delta
succeeds exactly when the partition sampling probability lies in `(0, 1]`,
failing for 0, negative values, and values above 1. -/
theorem claim_sampling_prob_validation (α : Type) (o : UtilityAnalysisOptions α)
    (hed : validate_epsilon_delta o.epsilon o.delta = true) :
    optionsValidationError o = none ↔
      (0 < o.partitions_sampling_prob ∧ o.partitions_sampling_prob ≤ 1) := by
  unfold optionsValidationError
  rw [hed]
  simp only [Bool.not_true, Bool.false_eq_true, if_false]
  by_cases hp : o.partitions_sampling_prob ≤ 0 ∨ 1 < o.partitions_sampling_prob
  · rw [if_pos hp]
    constructor
    · intro h; exact Option.noConfusion h
    · intro h
      rcases hp with hp | hp
      · exact absurd h.1 (not_lt.mpr hp)
      · exact absurd h.2 (not_le.mpr hp)
  · rw [if_neg hp]
    push_neg at hp
    exact ⟨fun _ => hp, fun _ => rfl⟩

/-- Witness for C10: sampling probability 1/2 with epsilon 1, delta 0 is
accepted. -/
theorem claim_sampling_prob_validation_witness :
    optionsValidationError (UtilityAnalysisOptions.mk 1 0 exampleParams none (1/2) false) = none ∧
    (0 : ℚ) < 1/2 ∧ (1/2 : ℚ) ≤ 1 :=
  ⟨(claim_sampling_prob_validation Unit
      (UtilityAnalysisOptions.mk 1 0 exampleParams none (1/2) false) (by decide)).mpr
    (by constructor <;> norm_num),
   by norm_num, by norm_num⟩

/-- C9: the expansion is deterministic and re-derivable from the options
alone: two successful calls to the module-level `get_aggregate_params`
produce element-wise equal sequences, the sequence has length
`n_configurations`, and element `i` is exactly the tuple derived purely from
the options and the index `i` (baseline tuple, or
`multi_param_configuration.get_aggregate_params(aggregate_params, i)`). -/
theorem claim_expansion_deterministic (α : Type) (opts : UtilityAnalysisOptions α)
    (l1 l2 : List (AggregateParams α × List (SumBound × SumBound)))
    (h1 : get_aggregate_params opts = .ok l1)
    (h2 : get_aggregate_params opts = .ok l2) :
    (l1.length = l2.length ∧ ∀ i : Nat, l1[i]? = l2[i]?) ∧
    l1.length = opts.n_configurations ∧
    (∀ i, i < opts.n_configurations →
      match opts.multi_param_configuration with
      | none =>
          l1[i]? = some (opts.aggregate_params,
            [(opts.aggregate_params.min_sum_per_partition,
              opts.aggregate_params.max_sum_per_partition)])
      | some c => ∃ t, c.get_aggregate_params opts.aggregate_params (Int.ofNat i) = .ok t ∧
          l1[i]? = some t) := by
  have hl : l1 = l2 := by
    rw [h1] at h2
    injection h2
  subst hl
  refine ⟨⟨rfl, fun i => rfl⟩, ?_⟩
  rcases hm : opts.multi_param_configuration with _ | c
  · unfold get_aggregate_params at h1
    rw [hm] at h1
    have hl1 : l1 = [(opts.aggregate_params,
        [(opts.aggregate_params.min_sum_per_partition,
          opts.aggregate_params.max_sum_per_partition)])] := by
      injection h1 with h
      exact h.symm
    subst hl1
    simp only [UtilityAnalysisOptions.n_configurations, hm]
    refine ⟨rfl, ?_⟩
    intro i hi
    have : i = 0 := by omega
    subst this
    rfl
  · unfold get_aggregate_params at h1
    rw [hm] at h1
    obtain ⟨hlen, hel⟩ := buildList_ok _ c.size l1 h1
    simp only [UtilityAnalysisOptions.n_configurations, hm]
    exact ⟨hlen, fun i hi => hel i hi⟩

/-- Witness for C9 at Example A options. -/
theorem claim_expansion_deterministic_witness :
    (listA.length = listA.length ∧ ∀ i : Nat, listA[i]? = listA[i]?) ∧
    listA.length = optsA.n_configurations ∧
    (∀ i, i < optsA.n_configurations →
      match optsA.multi_param_configuration with
      | none =>
          listA[i]? = some (optsA.aggregate_params,
            [(optsA.aggregate_params.min_sum_per_partition,
              optsA.aggregate_params.max_sum_per_partition)])
      | some c => ∃ t, c.get_aggregate_params optsA.aggregate_params (Int.ofNat i) = .ok t ∧
          listA[i]? = some t) :=
  claim_expansion_deterministic Unit optsA listA listA rfl rfl

/-- C5 counterexample: `c5mpc` supplies a (non-None but empty) strategy
sequence next to a length-2 bound sequence; it constructs successfully,
`n_configurations = 2`, yet `get_partition_selection_strategy` returns the
empty sequence verbatim — length 0, not `n_configurations`. -/
theorem claim_strategy_length_counterexample :
    mpcValidationError c5mpc = none ∧
    optsC5.n_configurations = 2 ∧
    get_partition_selection_strategy optsC5 = [] ∧
    (get_partition_selection_strategy optsC5).length = 0 :=
  ⟨rfl, rfl, rfl, rfl⟩

/-- C5 amended: `get_partition_selection_strategy` returns the supplied
strategy sequence verbatim whenever it is not `None` (even when empty), and
otherwise the baseline's strategy repeated `n_configurations` times; the
result's length equals `n_configurations` except when the supplied sequence
is empty. -/
theorem claim_strategies_amended (α : Type) (opts : UtilityAnalysisOptions α)
    (hv : ∀ c, opts.multi_param_configuration = some c → mpcValidationError c = none) :
    (get_partition_selection_strategy opts =
      match opts.multi_param_configuration with
      | none =>
          List.replicate opts.n_configurations
            opts.aggregate_params.partition_selection_strategy
      | some c =>
          match c.partition_selection_strategy with
          | some s => s
          | none =>
              List.replicate opts.n_configurations
                opts.aggregate_params.partition_selection_strategy) ∧
    ((match opts.multi_param_configuration with
      | none => True
      | some c => c.partition_selection_strategy ≠ some []) →
      (get_partition_selection_strategy opts).length = opts.n_configurations) := by
  rcases hm : opts.multi_param_configuration with _ | c
  · refine ⟨?_, ?_⟩
    · unfold get_partition_selection_strategy
      rw [hm]
      simp only [UtilityAnalysisOptions.n_configurations, hm]
    · intro _
      unfold get_partition_selection_strategy
      rw [hm]
      simp only [UtilityAnalysisOptions.n_configurations, hm, List.length_replicate]
  · have hvc := hv c hm
    refine ⟨?_, ?_⟩
    · unfold get_partition_selection_strategy
      rw [hm]
      simp only [UtilityAnalysisOptions.n_configurations, hm]
    · intro hne
      have hne' : c.partition_selection_strategy ≠ some [] := hne
      unfold get_partition_selection_strategy
      rw [hm]
      simp only [UtilityAnalysisOptions.n_configurations, hm]
      rcases hst : c.partition_selection_strategy with _ | s
      · simp [List.length_replicate]
      · rw [hst] at hne'
        have hsne : s.isEmpty = false := by
          cases s with
          | nil => exact absurd rfl hne'
          | cons a t => rfl
        exact length_eq_size_fstrategy c hvc s hst hsne

/-- Witness for C5 amended at Example A options (no strategy sequence). -/
theorem claim_strategies_amended_witness :
    get_partition_selection_strategy optsA =
      List.replicate 2 PartitionSelectionStrategy.truncated_geometric ∧
    (get_partition_selection_strategy optsA).length = 2 := by
  have h := claim_strategies_amended Unit optsA
    (fun c hc => by cases hc; rfl)
  exact ⟨h.1, h.2 (fun hc => Option.noConfusion hc)⟩

/-- C7 counterexample: for the valid size-2 configuration `c7mpc`, the index
-1 lies outside `0 ≤ i < 2`, yet `get_aggregate_params` raises no error: it
returns the last configuration (Python negative indexing). -/
theorem claim_materialize_negative_index_counterexample :
    mpcValidationError c7mpc = none ∧
    c7mpc.size = 2 ∧
    ((-1 : Int) < 0 ∨ (2 : Int) ≤ -1) ∧
    c7mpc.get_aggregate_params exampleParams (-1) =
      .ok ({ exampleParams with max_partitions_contributed := 2 },
           [(SumBound.scalar 0, SumBound.scalar 0)]) :=
  ⟨rfl, rfl, Or.inl (by norm_num), rfl⟩

/-! ### Behaviour of the override steps at in-range and out-of-range indices -/

theorem overrideField_ok_of_falsy (alt : Option (List β)) (cur : β) (i : Int)
    (h : pyTruthy alt = false) : overrideField alt cur i = .ok cur := by
  cases alt with
  | none => rfl
  | some l =>
    cases hl : l.isEmpty with
    | true => rw [overrideField, if_pos hl]
    | false =>
      rw [pyTruthy, hl] at h
      cases h

theorem overrideField_ok_of_inrange (alt : Option (List β)) (cur : β) (i : Int) (N : Nat)
    (hlen : ∀ l, alt = some l → l.isEmpty = false → l.length = N)
    (h1 : -(N : Int) ≤ i) (h2 : i < (N : Int)) :
    ∃ v, overrideField alt cur i = .ok v := by
  cases alt with
  | none => exact ⟨cur, rfl⟩
  | some l =>
    cases hl : l.isEmpty with
    | true => exact ⟨cur, by rw [overrideField, if_pos hl]⟩
    | false =>
      have hN := hlen l rfl hl
      obtain ⟨v, hv⟩ := pyGet_isSome_of_inrange l i (by rw [hN]; exact h1) (by rw [hN]; exact h2)
      exact ⟨v, by rw [overrideField, if_neg (by simp [hl]), hv]⟩

theorem overrideField_err_of_outrange (alt : Option (List β)) (cur : β) (i : Int) (N : Nat)
    (hlen : ∀ l, alt = some l → l.isEmpty = false → l.length = N)
    (htr : pyTruthy alt = true)
    (hout : i < -(N : Int) ∨ (N : Int) ≤ i) :
    overrideField alt cur i = .error .indexError := by
  cases alt with
  | none => cases htr
  | some l =>
    cases hl : l.isEmpty with
    | true =>
      rw [pyTruthy, hl] at htr
      cases htr
    | false =>
      have hN := hlen l rfl hl
      have := pyGet_none_of_outrange l i (by rw [hN]; exact hout)
      rw [overrideField, if_neg (by simp [hl]), this]

/-- C3: Example B's multi-column bound pairs, and in general: when element
`i` of both sum-bound sequences is itself a sequence, the bound-pair list of
configuration `i` pairs the two rows' columns position-wise. -/
theorem claim_multi_column_bound_pairs :
    (mpcValidationError exampleB = none ∧
     ∀ (α : Type) (params : AggregateParams α),
       (exampleB.get_aggregate_params params 0).map Prod.snd =
         .ok [(.scalar 1, .scalar 5), (.scalar 2, .scalar 6)] ∧
       (exampleB.get_aggregate_params params 1).map Prod.snd =
         .ok [(.scalar 3, .scalar 7), (.scalar 4, .scalar 8)]) ∧
    (∀ (c : MultiParameterConfiguration) (α : Type) (params : AggregateParams α)
       (i : Nat) (lmin lmax : List SumBound) (a b : List ℚ),
       mpcValidationError c = none →
       c.min_sum_per_partition = some lmin →
       c.max_sum_per_partition = some lmax →
       lmin[i]? = some (.row a) → lmax[i]? = some (.row b) →
       (c.get_aggregate_params params (Int.ofNat i)).map Prod.snd =
         .ok ((a.zip b).map fun p => (SumBound.scalar p.1, SumBound.scalar p.2))) := by
  refine ⟨⟨rfl, fun α params => ⟨rfl, rfl⟩⟩, ?_⟩
  intro c α params i lmin lmax a b hv hmin hmax hga hgb
  have hilt : i < lmin.length := by
    by_contra hle
    rw [List.getElem?_eq_none_iff.mpr (by omega)] at hga
    cases hga
  have hmine : lmin.isEmpty = false := by
    cases lmin with
    | nil => simp at hilt
    | cons x t => rfl
  have hminlen : lmin.length = c.size := length_eq_size_fmin c hv lmin hmin hmine
  have hofn : Int.ofNat i = (i : Int) := rfl
  have hir1 : -(c.size : Int) ≤ Int.ofNat i := by rw [hofn]; omega
  have hir2 : (Int.ofNat i) < (c.size : Int) := by rw [hofn]; omega
  obtain ⟨v1, hv1⟩ := overrideField_ok_of_inrange c.max_partitions_contributed
    params.max_partitions_contributed (Int.ofNat i) c.size
    (fun l hl hne => length_eq_size_f1 c hv l hl hne) hir1 hir2
  obtain ⟨v2, hv2⟩ := overrideField_ok_of_inrange c.max_contributions_per_partition
    params.max_contributions_per_partition (Int.ofNat i) c.size
    (fun l hl hne => length_eq_size_f2 c hv l hl hne) hir1 hir2
  obtain ⟨v3, hv3⟩ := overrideField_ok_of_inrange c.noise_kind
    params.noise_kind (Int.ofNat i) c.size
    (fun l hl hne => length_eq_size_fnoise c hv l hl hne) hir1 hir2
  obtain ⟨v4, hv4⟩ := overrideField_ok_of_inrange c.partition_selection_strategy
    params.partition_selection_strategy (Int.ofNat i) c.size
    (fun l hl hne => length_eq_size_fstrategy c hv l hl hne) hir1 hir2
  unfold MultiParameterConfiguration.get_aggregate_params
  rw [hv1, hv2, hv3, hv4]
  simp only [hmin, hmax, hmine, Bool.false_eq_true, if_false, pyGet_ofNat, hga, hgb]
  rfl

/-- Witness for C3's general part at Example B, index 0. -/
theorem claim_multi_column_bound_pairs_witness :
    (exampleB.get_aggregate_params exampleParams 0).map Prod.snd =
      .ok [(SumBound.scalar 1, SumBound.scalar 5), (SumBound.scalar 2, SumBound.scalar 6)] :=
  claim_multi_column_bound_pairs.2 exampleB Unit exampleParams 0
    [.row [1, 2], .row [3, 4]] [.row [5, 6], .row [7, 8]] [1, 2] [5, 6]
    rfl rfl rfl rfl rfl

theorem pyTruthy_iff (o : Option (List β)) :
    pyTruthy o = true ↔ ∃ l, o = some l ∧ l.isEmpty = false := by
  cases o with
  | none => simp [pyTruthy]
  | some l => simp [pyTruthy]

theorem overrideField_error_eq (alt : Option (List β)) (cur : β) (i : Int) (e : PyErr)
    (h : overrideField alt cur i = .error e) : e = .indexError := by
  cases alt with
  | none => cases h
  | some l =>
    rw [overrideField] at h
    by_cases hl : l.isEmpty = true
    · rw [if_pos hl] at h
      cases h
    · rw [if_neg hl] at h
      rcases hg : pyGet l i with _ | v
      · rw [hg] at h
        injection h with h2
        exact h2.symm
      · rw [hg] at h
        cases h

/-- The method `get_aggregate_params` never raises a `ValueError` (it performs no
validation): its only failures are index and type errors. -/
theorem get_aggregate_params_no_valueError (c : MultiParameterConfiguration) (α : Type)
    (params : AggregateParams α) (i : Int) :
    c.get_aggregate_params params i ≠ .error .valueError := by
  unfold MultiParameterConfiguration.get_aggregate_params
  rcases h1 : overrideField c.max_partitions_contributed
      params.max_partitions_contributed i with e1 | v1
  · simp only [h1]
    have := overrideField_error_eq _ _ _ _ h1
    subst this
    simp
  rcases h2 : overrideField c.max_contributions_per_partition
      params.max_contributions_per_partition i with e2 | v2
  · simp only [h1, h2]
    have := overrideField_error_eq _ _ _ _ h2
    subst this
    simp
  rcases h3 : overrideField c.noise_kind params.noise_kind i with e3 | v3
  · simp only [h1, h2, h3]
    have := overrideField_error_eq _ _ _ _ h3
    subst this
    simp
  rcases h4 : overrideField c.partition_selection_strategy
      params.partition_selection_strategy i with e4 | v4
  · simp only [h1, h2, h3, h4]
    have := overrideField_error_eq _ _ _ _ h4
    subst this
    simp
  simp only [h1, h2, h3, h4]
  rcases hmin : c.min_sum_per_partition with _ | lmin
  · simp
  by_cases hle : lmin.isEmpty = true
  · simp [hle]
  rcases hg : pyGet lmin i with _ | ms
  · simp [hle, hg]
  rcases hmax : c.max_sum_per_partition with _ | lmax
  · simp [hle, hg]
  rcases hg2 : pyGet lmax i with _ | mx
  · simp [hle, hg, hg2]
  rcases ms with v | a
  · simp [hle, hg, hg2]
  rcases mx with w | b
  · simp [hle, hg, hg2]
  · simp [hle, hg, hg2]

/-- A validated configuration has at least one truthy attribute. -/
theorem exists_truthy_of_valid (c : MultiParameterConfiguration)
    (h : mpcValidationError c = none) :
    pyTruthy c.max_partitions_contributed = true ∨
    pyTruthy c.max_contributions_per_partition = true ∨
    pyTruthy c.min_sum_per_partition = true ∨
    pyTruthy c.max_sum_per_partition = true ∨
    pyTruthy c.noise_kind = true ∨
    pyTruthy c.partition_selection_strategy = true := by
  obtain ⟨h1, -⟩ := valid_facts c h
  by_contra hall
  push_neg at hall
  obtain ⟨n1, n2, n3, n4, n5, n6⟩ := hall
  have e1 := (optLen_eq_nil_iff c.max_partitions_contributed).mpr (by simpa using n1)
  have e2 := (optLen_eq_nil_iff c.max_contributions_per_partition).mpr (by simpa using n2)
  have e3 := (optLen_eq_nil_iff c.min_sum_per_partition).mpr (by simpa using n3)
  have e4 := (optLen_eq_nil_iff c.max_sum_per_partition).mpr (by simpa using n4)
  have e5 := (optLen_eq_nil_iff c.noise_kind).mpr (by simpa using n5)
  have e6 := (optLen_eq_nil_iff c.partition_selection_strategy).mpr (by simpa using n6)
  have : mpcSizes c = [] := by
    unfold mpcSizes
    rw [e1, e2, e3, e4, e5, e6]
    rfl
  rw [this] at h1
  exact absurd h1 (by simp)

/-- C7 amended: for a validly constructed configuration of size `N` whose
min/max-sum sequences are both truthy or both falsy, `get_aggregate_params`
raises a bounds (index) error exactly when the integer index is outside
`-N ≤ i < N` — Python negative indices in `[-N, -1]` select configurations
from the end rather than raising — and it never raises a `ValueError`
(performs no data validation). -/
theorem claim_materialize_bounds_amended (c : MultiParameterConfiguration) (α : Type)
    (params : AggregateParams α) (i : Int)
    (hv : mpcValidationError c = none)
    (hmm : pyTruthy c.min_sum_per_partition = pyTruthy c.max_sum_per_partition) :
    (c.get_aggregate_params params i = .error .indexError ↔
      (i < -(c.size : Int) ∨ (c.size : Int) ≤ i)) ∧
    (∀ j : Int, c.get_aggregate_params params j ≠ .error .valueError) := by
  refine ⟨⟨?_, ?_⟩, fun j => get_aggregate_params_no_valueError c α params j⟩
  · -- an index error implies the index is out of range
    intro herr
    by_contra hout
    push_neg at hout
    obtain ⟨hin1, hin2⟩ := hout
    obtain ⟨v1, hv1⟩ := overrideField_ok_of_inrange c.max_partitions_contributed
      params.max_partitions_contributed i c.size
      (fun l hl hne => length_eq_size_f1 c hv l hl hne) hin1 hin2
    obtain ⟨v2, hv2⟩ := overrideField_ok_of_inrange c.max_contributions_per_partition
      params.max_contributions_per_partition i c.size
      (fun l hl hne => length_eq_size_f2 c hv l hl hne) hin1 hin2
    obtain ⟨v3, hv3⟩ := overrideField_ok_of_inrange c.noise_kind
      params.noise_kind i c.size
      (fun l hl hne => length_eq_size_fnoise c hv l hl hne) hin1 hin2
    obtain ⟨v4, hv4⟩ := overrideField_ok_of_inrange c.partition_selection_strategy
      params.partition_selection_strategy i c.size
      (fun l hl hne => length_eq_size_fstrategy c hv l hl hne) hin1 hin2
    unfold MultiParameterConfiguration.get_aggregate_params at herr
    rw [hv1, hv2, hv3, hv4] at herr
    rcases hmin : c.min_sum_per_partition with _ | lmin
    · rw [hmin] at herr
      simp at herr
    rw [hmin] at herr
    by_cases hle : lmin.isEmpty = true
    · simp [hle] at herr
    have hminne : lmin.isEmpty = false := by simpa using hle
    have htmin : pyTruthy c.min_sum_per_partition = true := by
      rw [hmin, pyTruthy, hminne]
      rfl
    have htmax : pyTruthy c.max_sum_per_partition = true := hmm ▸ htmin
    obtain ⟨lmax, hmax, hmaxne⟩ := (pyTruthy_iff _).mp htmax
    have hminlen : lmin.length = c.size := length_eq_size_fmin c hv lmin hmin hminne
    have hmaxlen : lmax.length = c.size := length_eq_size_fmax c hv lmax hmax hmaxne
    obtain ⟨ms, hgmin⟩ := pyGet_isSome_of_inrange lmin i
      (by rw [hminlen]; exact hin1) (by rw [hminlen]; exact hin2)
    obtain ⟨mx, hgmax⟩ := pyGet_isSome_of_inrange lmax i
      (by rw [hmaxlen]; exact hin1) (by rw [hmaxlen]; exact hin2)
    simp only [hminne, Bool.false_eq_true, if_false, hgmin, hmax, hgmax] at herr
    rcases ms with v | a
    · simp at herr
    rcases mx with w | b
    · simp at herr
    · simp at herr
  · -- an out-of-range index produces an index error
    intro hout
    have six := exists_truthy_of_valid c hv
    unfold MultiParameterConfiguration.get_aggregate_params
    cases ht1 : pyTruthy c.max_partitions_contributed with
    | true =>
      rw [overrideField_err_of_outrange c.max_partitions_contributed
        params.max_partitions_contributed i c.size
        (fun l hl hne => length_eq_size_f1 c hv l hl hne) ht1 hout]
    | false =>
    rw [overrideField_ok_of_falsy _ _ _ ht1]
    cases ht2 : pyTruthy c.max_contributions_per_partition with
    | true =>
      rw [overrideField_err_of_outrange c.max_contributions_per_partition
        params.max_contributions_per_partition i c.size
        (fun l hl hne => length_eq_size_f2 c hv l hl hne) ht2 hout]
    | false =>
    rw [overrideField_ok_of_falsy _ _ _ ht2]
    cases ht3 : pyTruthy c.noise_kind with
    | true =>
      rw [overrideField_err_of_outrange c.noise_kind
        params.noise_kind i c.size
        (fun l hl hne => length_eq_size_fnoise c hv l hl hne) ht3 hout]
    | false =>
    rw [overrideField_ok_of_falsy _ _ _ ht3]
    cases ht4 : pyTruthy c.partition_selection_strategy with
    | true =>
      rw [overrideField_err_of_outrange c.partition_selection_strategy
        params.partition_selection_strategy i c.size
        (fun l hl hne => length_eq_size_fstrategy c hv l hl hne) ht4 hout]
    | false =>
    rw [overrideField_ok_of_falsy _ _ _ ht4]
    have htmin : pyTruthy c.min_sum_per_partition = true := by
      rcases six with h | h | h | h | h | h
      · rw [ht1] at h; cases h
      · rw [ht2] at h; cases h
      · exact h
      · rw [← hmm] at h; exact h
      · rw [ht3] at h; cases h
      · rw [ht4] at h; cases h
    obtain ⟨lmin, hminq, hminne⟩ := (pyTruthy_iff _).mp htmin
    simp only [hminq, hminne, Bool.false_eq_true, if_false,
      pyGet_none_of_outrange lmin i
        (by rw [length_eq_size_fmin c hv lmin hminq hminne]; exact hout)]

/-- Witness for C7 amended at `c7mpc`, index 5 (out of range above). -/
theorem claim_materialize_bounds_amended_witness :
    (c7mpc.get_aggregate_params exampleParams 5 = .error .indexError ↔
      ((5 : Int) < -(c7mpc.size : Int) ∨ (c7mpc.size : Int) ≤ 5)) ∧
    c7mpc.get_aggregate_params exampleParams 7 ≠ .error .valueError :=
  ⟨(claim_materialize_bounds_amended c7mpc Unit exampleParams 5 rfl rfl).1,
   (claim_materialize_bounds_amended c7mpc Unit exampleParams 5 rfl rfl).2 7⟩

/-- C4 counterexample: `c4mpc` supplies an empty min-sum sequence and a
max-sum sequence whose rows have column counts 1 and 2.  Its construction
succeeds, although the claim's condition (rows mismatching across the
max-sum sequence, with every element of both sequences a sequence) says it
must fail. -/
theorem claim_validation_counterexample :
    mpcValidationError c4mpc = none ∧ specRaisesC4 c4mpc := by
  refine ⟨rfl, Or.inr (Or.inr (Or.inr ?_))⟩
  refine ⟨[], [.row [1], .row [2, 3]], rfl, rfl, ?_, ?_, ?_⟩
  · intro s hs
    cases hs
  · intro s hs
    rcases hs with _ | ⟨_, hs⟩
    · rfl
    · rcases hs with _ | ⟨_, hs⟩
      · rfl
      · cases hs
  · rintro ⟨k, -, hmax⟩
    have h1 := hmax (.row [1]) (by simp)
    have h2 := hmax (.row [2, 3]) (by simp)
    simp [SumBound.pyLen] at h1 h2
    omega

theorem sizes_empty_iff (c : MultiParameterConfiguration) :
    (mpcSizes c).isEmpty = true ↔ specNoNonEmptyAlternate c := by
  rw [List.isEmpty_iff]
  unfold mpcSizes specNoNonEmptyAlternate
  simp only [List.append_eq_nil, optLen_eq_nil_iff]
  tauto

theorem pymin_ne_pymax_iff (l : List Nat) (hne : l ≠ []) :
    pymin l ≠ pymax l ↔ ∃ a ∈ l, ∃ b ∈ l, a ≠ b := by
  rcases l with _ | ⟨h, t⟩
  · exact absurd rfl hne
  · rw [Ne, pymin_eq_pymax_iff]
    constructor
    · intro hnall
      push_neg at hnall
      obtain ⟨a, ha, hne2⟩ := hnall
      exact ⟨a, List.mem_cons_of_mem h ha, h, List.mem_cons_self h t, hne2⟩
    · rintro ⟨a, ha, b, hb, hab⟩ hall
      have ea : a = h := by
        rcases List.mem_cons.mp ha with rfl | h2
        · rfl
        · exact hall a h2
      have eb : b = h := by
        rcases List.mem_cons.mp hb with rfl | h2
        · rfl
        · exact hall b h2
      exact hab (ea.trans eb.symm)

theorem common_value_len_eq_some_iff (l : List SumBound) (k : Nat) :
    common_value_len l = some k ↔ (l ≠ [] ∧ ∀ s ∈ l, s.pyLen = k) := by
  unfold common_value_len
  rcases hm : l.map SumBound.pyLen with _ | ⟨h, t⟩
  · have hl : l = [] := List.map_eq_nil_iff.mp hm
    subst hl
    simp
  · have hlne : l ≠ [] := by
      intro h0
      subst h0
      cases hm
    dsimp only
    by_cases he : t.foldl min h = t.foldl max h
    · rw [if_pos he]
      have hall := (foldl_min_eq_foldl_max_iff h t).mp he
      rw [foldl_min_eq_const t h hall]
      simp only [Option.some.injEq]
      constructor
      · rintro rfl
        refine ⟨hlne, ?_⟩
        intro s hs
        have hmem : s.pyLen ∈ l.map SumBound.pyLen := List.mem_map_of_mem _ hs
        rw [hm] at hmem
        rcases List.mem_cons.mp hmem with h2 | h2
        · exact h2
        · exact hall _ h2
      · rintro ⟨-, hk⟩
        have hmem : h ∈ l.map SumBound.pyLen := by
          rw [hm]
          exact List.mem_cons_self h t
        obtain ⟨s, hs, hsk⟩ := List.mem_map.mp hmem
        rw [← hsk]
        exact hk s hs
    · rw [if_neg he]
      constructor
      · intro h0
        cases h0
      · rintro ⟨-, hk⟩
        exfalso
        apply he
        have hhk : h = k := by
          have hmem : h ∈ l.map SumBound.pyLen := by
            rw [hm]
            exact List.mem_cons_self h t
          obtain ⟨s, hs, hsk⟩ := List.mem_map.mp hmem
          rw [← hsk]
          exact hk s hs
        have hallt : ∀ a ∈ t, a = h := by
          intro a ha
          have hmem : a ∈ l.map SumBound.pyLen := by
            rw [hm]
            exact List.mem_cons_of_mem h ha
          obtain ⟨s, hs, hsk⟩ := List.mem_map.mp hmem
          rw [← hsk, hk s hs]
          exact hhk.symm
        rw [foldl_min_eq_const t h hallt, foldl_max_eq_const t h hallt]

/-- C4 amended: construction succeeds exactly when none of the four
conditions holds, where the multi-column clause is entered only for a
non-empty min-sum sequence and an empty supplied max-sum counts as a
mismatch (`claim_validation_counterexample` shows the unamended clause
fails).  Equivalently, a `ConfigurationError` is raised exactly when one of
the four amended conditions holds. -/
theorem claim_validation_amended (c : MultiParameterConfiguration) :
    mpcValidationError c = none ↔ ¬ specRaisesC4Amended c := by
  by_cases h1 : (mpcSizes c).isEmpty = true
  · have hval : mpcValidationError c = some .valueError := by
      unfold mpcValidationError
      rw [if_pos h1]
    refine iff_of_false ?_ ?_
    · intro h
      rw [hval] at h
      cases h
    · intro hn
      exact hn (Or.inl ((sizes_empty_iff c).mp h1))
  have hne : mpcSizes c ≠ [] := by
    intro h0
    exact h1 (by rw [h0]; rfl)
  have hnsne : ¬ specNoNonEmptyAlternate c := fun hs => h1 ((sizes_empty_iff c).mpr hs)
  by_cases h2 : pymin (mpcSizes c) ≠ pymax (mpcSizes c)
  · have hval : mpcValidationError c = some .valueError := by
      unfold mpcValidationError
      rw [if_neg h1, if_pos h2]
    refine iff_of_false ?_ ?_
    · intro h
      rw [hval] at h
      cases h
    · intro hn
      exact hn (Or.inr (Or.inl ((pymin_ne_pymax_iff _ hne).mp h2)))
  have hnomis : ¬ specLengthMismatch c := fun hs => h2 ((pymin_ne_pymax_iff _ hne).mpr hs)
  by_cases h3 : c.min_sum_per_partition.isNone ≠ c.max_sum_per_partition.isNone
  · have hval : mpcValidationError c = some .valueError := by
      unfold mpcValidationError
      rw [if_neg h1, if_neg h2, if_pos h3]
    refine iff_of_false ?_ ?_
    · intro h
      rw [hval] at h
      cases h
    · intro hn
      exact hn (Or.inr (Or.inr (Or.inl h3)))
  have hbr : mpcValidationError c =
      (match c.min_sum_per_partition, c.max_sum_per_partition with
       | some lmin, some lmax =>
         if lmin.isEmpty then none
         else if all_elements_are_lists lmin && all_elements_are_lists lmax then
           match common_value_len lmin, common_value_len lmax with
           | some s1, some s2 => if s1 = s2 then none else some .valueError
           | _, _ => some .valueError
         else none
       | _, _ => none) := by
    unfold mpcValidationError
    rw [if_neg h1, if_neg h2, if_neg h3]
  rcases hmin : c.min_sum_per_partition with _ | lmin
  · -- min_sum is None; by the xor check max_sum is None too
    have hmax : c.max_sum_per_partition = none := by
      have heq := not_ne_iff.mp h3
      rw [hmin] at heq
      cases hm2 : c.max_sum_per_partition with
      | none => rfl
      | some l =>
        rw [hm2] at heq
        simp at heq
    rw [hmin, hmax] at hbr
    have hnone : mpcValidationError c = none := by rw [hbr]
    refine iff_of_true hnone ?_
    rintro (hs | hs | hs | hs)
    · exact hnsne hs
    · exact hnomis hs
    · exact h3 hs
    · obtain ⟨lmin2, lmax2, hq1, -⟩ := hs
      rw [hmin] at hq1
      cases hq1
  rcases hmax : c.max_sum_per_partition with _ | lmax
  · exfalso
    apply h3
    rw [hmin, hmax]
    simp
  rw [hmin, hmax] at hbr
  dsimp only at hbr
  by_cases hle : lmin.isEmpty = true
  · rw [if_pos hle] at hbr
    have hlnil : lmin = [] := List.isEmpty_iff.mp hle
    refine iff_of_true (by rw [hbr]) ?_
    rintro (hs | hs | hs | hs)
    · exact hnsne hs
    · exact hnomis hs
    · exact h3 hs
    · obtain ⟨lmin2, lmax2, hq1, hq2, hn2, -⟩ := hs
      rw [hmin] at hq1
      injection hq1 with e1
      exact hn2 (e1 ▸ hlnil)
  have hlnil : lmin ≠ [] := fun h0 => hle (by rw [h0]; rfl)
  rw [if_neg hle] at hbr
  by_cases hall : (all_elements_are_lists lmin && all_elements_are_lists lmax) = true
  · rw [if_pos hall] at hbr
    have hallmin : ∀ s ∈ lmin, s.isRow = true := by
      have h := ((Bool.and_eq_true _ _).mp hall).1
      simpa [all_elements_are_lists, List.all_eq_true] using h
    have hallmax : ∀ s ∈ lmax, s.isRow = true := by
      have h := ((Bool.and_eq_true _ _).mp hall).2
      simpa [all_elements_are_lists, List.all_eq_true] using h
    rcases hcv1 : common_value_len lmin with _ | s1
    · rw [hcv1] at hbr
      have hmm2 : specMultiColumnMismatchAmended c := by
        refine ⟨lmin, lmax, hmin, hmax, hlnil, hallmin, hallmax, ?_⟩
        rintro ⟨k, hminall, -, -⟩
        have h := (common_value_len_eq_some_iff lmin k).mpr ⟨hlnil, hminall⟩
        rw [hcv1] at h
        cases h
      have hval : mpcValidationError c = some .valueError := by
        rw [hbr]
      refine iff_of_false ?_ ?_
      · intro h
        rw [hval] at h
        cases h
      · intro hn
        exact hn (Or.inr (Or.inr (Or.inr hmm2)))
    · rw [hcv1] at hbr
      rcases hcv2 : common_value_len lmax with _ | s2
      · rw [hcv2] at hbr
        have hmm2 : specMultiColumnMismatchAmended c := by
          refine ⟨lmin, lmax, hmin, hmax, hlnil, hallmin, hallmax, ?_⟩
          rintro ⟨k, -, hlmaxne, hmaxall⟩
          have h := (common_value_len_eq_some_iff lmax k).mpr ⟨hlmaxne, hmaxall⟩
          rw [hcv2] at h
          cases h
        refine iff_of_false ?_ ?_
        · intro h
          rw [hbr] at h
          cases h
        · intro hn
          exact hn (Or.inr (Or.inr (Or.inr hmm2)))
      · rw [hcv2] at hbr
        dsimp only at hbr
        by_cases hs12 : s1 = s2
        · rw [if_pos hs12] at hbr
          obtain ⟨-, hminall⟩ := (common_value_len_eq_some_iff lmin s1).mp hcv1
          obtain ⟨hlmaxne, hmaxall⟩ := (common_value_len_eq_some_iff lmax s2).mp hcv2
          refine iff_of_true hbr ?_
          rintro (hs | hs | hs | hs)
          · exact hnsne hs
          · exact hnomis hs
          · exact h3 hs
          · obtain ⟨lmin2, lmax2, hq1, hq2, -, -, -, hnok⟩ := hs
            rw [hmin] at hq1
            rw [hmax] at hq2
            injection hq1 with e1
            injection hq2 with e2
            subst e1
            subst e2
            exact hnok ⟨s1, hminall, hlmaxne, fun s hs2 => hs12 ▸ hmaxall s hs2⟩
        · rw [if_neg hs12] at hbr
          have hmm2 : specMultiColumnMismatchAmended c := by
            refine ⟨lmin, lmax, hmin, hmax, hlnil, hallmin, hallmax, ?_⟩
            rintro ⟨k, hminall, hlmaxne, hmaxall⟩
            have e1 := (common_value_len_eq_some_iff lmin k).mpr ⟨hlnil, hminall⟩
            have e2 := (common_value_len_eq_some_iff lmax k).mpr ⟨hlmaxne, hmaxall⟩
            rw [hcv1] at e1
            rw [hcv2] at e2
            injection e1 with e1
            injection e2 with e2
            exact hs12 (e1.trans e2.symm)
          refine iff_of_false ?_ ?_
          · intro h
            rw [hbr] at h
            cases h
          · intro hn
            exact hn (Or.inr (Or.inr (Or.inr hmm2)))
  · rw [if_neg hall] at hbr
    have hnomm : ¬ specMultiColumnMismatchAmended c := by
      rintro ⟨lmin2, lmax2, hq1, hq2, -, har1, har2, -⟩
      rw [hmin] at hq1
      rw [hmax] at hq2
      injection hq1 with e1
      injection hq2 with e2
      apply hall
      rw [Bool.and_eq_true]
      constructor
      · rw [all_elements_are_lists, List.all_eq_true]
        intro s hs
        exact har1 s (e1 ▸ hs)
      · rw [all_elements_are_lists, List.all_eq_true]
        intro s hs
        exact har2 s (e2 ▸ hs)
    refine iff_of_true (by rw [hbr]) ?_
    rintro (hs | hs | hs | hs)
    · exact hnsne hs
    · exact hnomis hs
    · exact h3 hs
    · exact hnomm hs
